import Mathlib

/-!
Verification development for the MvsoModel repository (an urbs-style
energy-system model front end).  The Python sources under `MvsoModel/input.py`,
`runme.py` and `comp.py` are shallowly embedded below: pandas DataFrames
become explicit index/column/row structures over exact rational cell values,
fallible library calls (missing sheet, missing column label, missing row
index) become `Option`-valued functions, and in-place mutation is made
explicit by returning the updated tables.
-/

/-- A spreadsheet / DataFrame cell: either a number (floats are modelled as
exact rationals) or a string. -/
inductive Value
  | num (q : ℚ)
  | str (s : String)
deriving DecidableEq, Repr

/-- A column label of a DataFrame: either a plain (flat) label, as parsed
from a sheet header, or a multi-level label as produced by `split_columns`. -/
inductive ColLabel
  | flat (s : String)
  | multi (parts : List String)
deriving DecidableEq, Repr

/-- An indexed table, modelling a pandas DataFrame after `set_index`:
`indexNames` are the names of the index columns, `colNames` the data column
labels, and each row is an (index tuple, data cells) pair with the cells
aligned positionally with `colNames`. -/
structure DataFrame where
  indexNames : List String
  colNames : List ColLabel
  rows : List (List Value × List Value)
deriving DecidableEq, Repr

/-- A raw worksheet before `set_index`: a header row and data rows aligned
positionally with the headers. -/
structure Sheet where
  headers : List String
  rows : List (List Value)
deriving DecidableEq, Repr

/-- An Excel workbook: sheets by name. -/
abbrev Workbook := List (String × Sheet)

/-- The input data dict produced by `read_excel`: tables by key. -/
abbrev DataDict := List (String × DataFrame)

/-- Association-list lookup by string key (first match), modelling Python
dict / attribute lookup. -/
def alookup {α : Type} (l : List (String × α)) (k : String) : Option α :=
  (l.find? (fun p => p.1 == k)).map Prod.snd

/-- Sequencing of fallible steps (a library call that may raise, followed by
code using its result). -/
def obind {α β : Type} (x : Option α) (f : α → Option β) : Option β :=
  match x with
  | none => none
  | some a => f a

/-- `Option`-valued map over a list; `none` as soon as `f` fails.  Models a
loop in which any iteration may raise. -/
def mapOpt {α β : Type} (f : α → Option β) : List α → Option (List β)
  | [] => some []
  | a :: as =>
    match f a, mapOpt f as with
    | some b, some bs => some (b :: bs)
    | _, _ => none

/-- Ordered insertion for the sorting model. -/
def insertOrd {α : Type} (le : α → α → Bool) (x : α) : List α → List α
  | [] => [x]
  | y :: ys => if le x y then x :: y :: ys else y :: insertOrd le x ys

/-- Insertion sort.  Models the (stable, comparison-based) sorts performed by
`pandas.DataFrame.sort_index` and Python's `sorted`; every use site below
compares by a key on which ties are impossible or irrelevant. -/
def insort {α : Type} (le : α → α → Bool) : List α → List α
  | [] => []
  | x :: xs => insertOrd le x (insort le xs)

/-- Lexicographic comparison of character lists: the `≤` underlying
Python's string comparison (by code point). -/
def charListLe : List Char → List Char → Bool
  | [], _ => true
  | _ :: _, [] => false
  | c :: cs, d :: ds => if c = d then charListLe cs ds else decide (c < d)

/-- Python's `≤` on strings: code-point lexicographic. -/
def strle (a b : String) : Bool := charListLe a.data b.data

/-- Comparison on cells, modelling Python's `<` on the homogeneous values
that actually get compared (index tuples of strings, numeric cells). -/
def Value.le : Value → Value → Bool
  | .num a, .num b => decide (a ≤ b)
  | .str a, .str b => strle a b
  | .num _, .str _ => true
  | .str _, .num _ => false

/-- Lexicographic comparison of index tuples, as used by `sort_index`. -/
def lexLe : List Value → List Value → Bool
  | [], _ => true
  | _ :: _, [] => false
  | a :: as, b :: bs => if a = b then lexLe as bs else Value.le a b

/-- Whether `sep` is an initial segment of `l`. -/
def isPre : List Char → List Char → Bool
  | [], _ => true
  | _ :: _, [] => false
  | c :: cs, d :: ds => c = d && isPre cs ds

/-- Index of the first occurrence of `sep` in the list, if any. -/
def findSub (sep : List Char) : List Char → Option ℕ
  | [] => if sep.isEmpty then some 0 else none
  | c :: cs =>
    if isPre sep (c :: cs) then some 0
    else (findSub sep cs).map (fun i => i + 1)

/-- Fuel-driven splitting at every non-overlapping occurrence of `sep`,
scanning left to right.  With fuel above the text length the fuel never runs
out for a non-empty `sep`. -/
def pySplitAux (sep : List Char) : List Char → ℕ → List (List Char)
  | l, 0 => [l]
  | l, fuel + 1 =>
    match findSub sep l with
    | none => [l]
    | some i => l.take i :: pySplitAux sep (l.drop (i + sep.length)) fuel

/-- Python's `str.split(sep)` for a non-empty separator: split at every
non-overlapping occurrence, keeping empty pieces.  (Implemented over
character lists so that concrete instances evaluate inside the kernel.) -/
def pySplit (s sep : String) : List String :=
  (pySplitAux sep.data s.data (s.data.length + 1)).map (fun l => ⟨l⟩)

/-- Python's `str.replace(old, new)` for a non-empty pattern:
`new.join(s.split(old))`. -/
def pyReplace (s old new : String) : String :=
  ⟨List.intercalate new.data (pySplitAux old.data s.data (s.data.length + 1))⟩

/-- `split_columns` from `MvsoModel/input.py` (lines 156-178): an empty
column list is returned unchanged, otherwise every label is split at the
literal string '.' into a multi-level label.  The `sep` parameter is
accepted but, as in the source, never used. -/
def split_columns (columns : List String) (sep : String) : List ColLabel :=
  if columns.length = 0 then columns.map ColLabel.flat
  else columns.map (fun col => ColLabel.multi (pySplit col "."))

/-- Value of column `c` in a (header, cell) association, defaulting like a
rectangular-sheet lookup that is only used when `c` is known to be present. -/
def cellAt (pairs : List (String × Value)) (c : String) : Value :=
  ((pairs.find? (fun p => p.1 == c)).map Prod.snd).getD (Value.str "")

/-- `DataFrame.set_index(cols)` as used in `read_excel`: moves the named
columns into the index, keeping the remaining columns as data.  Fails (as
pandas raises `KeyError`) when an index column is missing, and requires the
sheet to be rectangular. -/
def set_index (sh : Sheet) (cols : List String) : Option DataFrame :=
  if sh.rows.all (fun r => r.length = sh.headers.length) ∧
     cols.all (fun c => sh.headers.contains c) then
    some { indexNames := cols,
           colNames := (sh.headers.filter (fun h => ¬ cols.contains h)).map ColLabel.flat,
           rows := sh.rows.map (fun r =>
             (cols.map (fun c => cellAt (sh.headers.zip r) c),
              ((sh.headers.zip r).filter (fun p => ¬ cols.contains p.1)).map Prod.snd)) }
  else none

/-- Recover the flat labels of a frame whose columns have not been split
yet; fails on an already multi-level column. -/
def flatLabels (cols : List ColLabel) : Option (List String) :=
  mapOpt (fun c => match c with | ColLabel.flat s => some s | ColLabel.multi _ => none) cols

/-- The column-splitting step of `read_excel` (lines 53-55):
`df.columns = split_columns(df.columns, '.')`. -/
def splitCols (df : DataFrame) : Option DataFrame :=
  obind (flatLabels df.colNames) fun labels =>
  some { df with colNames := split_columns labels "." }

/-- The sorting loop of `read_excel` (lines 71-74): a table whose index is a
MultiIndex (two or more index columns) is sorted lexicographically by its
index; all other tables are left untouched. -/
def sortIfMulti (df : DataFrame) : DataFrame :=
  if 2 ≤ df.indexNames.length then
    { df with rows := insort (fun a b => lexLe a.1 b.1) df.rows }
  else df

/-- `read_excel` from `MvsoModel/input.py` (lines 7-75): parse the eleven
fixed sheets, set their fixed index columns, split the column labels of
'demand', 'supim' and 'buy_sell_price' at '.', assemble the data dict and
sort every MultiIndexed table by its index.  A missing sheet or missing
index column makes the whole call fail, as the underlying library raises. -/
def read_excel (wb : Workbook) : Option DataDict :=
  obind (alookup wb "Site") fun siteSh =>
  obind (set_index siteSh ["Name"]) fun site =>
  obind (alookup wb "Commodity") fun comSh =>
  obind (set_index comSh ["Site", "Commodity", "Type"]) fun commodity =>
  obind (alookup wb "Process") fun proSh =>
  obind (set_index proSh ["Site", "Process"]) fun process =>
  obind (alookup wb "Process-Commodity") fun proComSh =>
  obind (set_index proComSh ["Process", "Commodity", "Direction"]) fun process_commodity =>
  obind (alookup wb "Transmission") fun transSh =>
  obind (set_index transSh ["Site In", "Site Out", "Transmission", "Commodity"]) fun transmission =>
  obind (alookup wb "Storage") fun stoSh =>
  obind (set_index stoSh ["Site", "Storage", "Commodity"]) fun storage =>
  obind (alookup wb "Demand") fun demSh =>
  obind (set_index demSh ["t"]) fun demand0 =>
  obind (alookup wb "SupIm") fun supSh =>
  obind (set_index supSh ["t"]) fun supim0 =>
  obind (alookup wb "Buy-Sell-Price") fun bspSh =>
  obind (set_index bspSh ["t"]) fun buy_sell_price0 =>
  obind (alookup wb "DSM") fun dsmSh =>
  obind (set_index dsmSh ["Site", "Commodity"]) fun dsm =>
  obind (alookup wb "Global") fun gloSh =>
  obind (set_index gloSh ["Property"]) fun global_prop =>
  obind (splitCols demand0) fun demand =>
  obind (splitCols supim0) fun supim =>
  obind (splitCols buy_sell_price0) fun buy_sell_price =>
  some (([("global_prop", global_prop),
          ("site", site),
          ("commodity", commodity),
          ("process", process),
          ("process_commodity", process_commodity),
          ("transmission", transmission),
          ("storage", storage),
          ("demand", demand),
          ("supim", supim),
          ("buy_sell_price", buy_sell_price),
          ("dsm", dsm)] : DataDict).map (fun p => (p.1, sortIfMulti p.2)))

/-- `DataFrame.drop(col, axis=1)` as used on `global_prop`: removes the
column, failing (pandas `KeyError`) when the label is absent.  Column labels
are assumed unique, as in every input workbook. -/
def dropCol (df : DataFrame) (col : String) : Option DataFrame :=
  obind (df.colNames.findIdx? (fun c => c = ColLabel.flat col)) fun p =>
  some { df with colNames := df.colNames.eraseIdx p,
                 rows := df.rows.map (fun r => (r.1, r.2.eraseIdx p)) }

/-- Modelled from the spec: `annuity_factor` is imported from
`MvsoModel/modelhelper.py`, which is not among the sources.  Per the spec it
is "the financial coefficient amortizing investment cost over an asset's
depreciation period at a given discount rate", `(1+i)^n * i / ((1+i)^n - 1)`
for depreciation period `n` (a whole number of years) and discount rate
(wacc) `i`. -/
def annuity_factor (n : ℕ) (i : ℚ) : ℚ :=
  (1 + i) ^ n * i / ((1 + i) ^ n - 1)

/-- One row's annuity-factor cell: both inputs must be numeric and the
depreciation period a whole non-negative number of years. -/
def annuityCell (dep wacc : Value) : Option Value :=
  match dep, wacc with
  | .num n, .num i =>
    if n.den = 1 ∧ 0 ≤ n then some (.num (annuity_factor n.num.toNat i)) else none
  | _, _ => none

/-- Column assignment `df[col] = vals`: replaces the column when the label
exists, otherwise appends it on the right (pandas semantics). -/
def setColumn (df : DataFrame) (col : ColLabel) (vals : List Value) : DataFrame :=
  match df.colNames.findIdx? (fun c => c = col) with
  | some p =>
      { df with rows := List.zipWith (fun r v => (r.1, r.2.set p v)) df.rows vals }
  | none =>
      { df with colNames := df.colNames ++ [col],
                rows := List.zipWith (fun r v => (r.1, r.2 ++ [v])) df.rows vals }

/-- The in-place annuity-column addition of `pyomo_model_prep`
(lines 138-146): `m.tbl['annuity-factor'] =
annuity_factor(m.tbl['depreciation'], m.tbl['wacc'])`.  Fails when either
source column is missing or a cell is not a valid input. -/
def addAnnuity (df : DataFrame) : Option DataFrame :=
  obind (df.colNames.findIdx? (fun c => c = ColLabel.flat "depreciation")) fun d =>
  obind (df.colNames.findIdx? (fun c => c = ColLabel.flat "wacc")) fun w =>
  obind (mapOpt (fun r =>
      obind (r.2[d]?) fun dv =>
      obind (r.2[w]?) fun wv =>
      annuityCell dv wv) df.rows) fun vals =>
  some (setColumn df (ColLabel.flat "annuity-factor") vals)

/-- A model instance as far as `get_input` is concerned: the DataFrame
attributes set on it (in assignment order), its timesteps, and the optional
`_data` cache dict present on loaded instances. -/
structure Prob where
  attrs : List (String × DataFrame)
  timesteps : List ℤ
  pdata : Option (List (String × DataFrame))
deriving DecidableEq

/-- `df.xs(key, level=name)` on an indexed table: the cross-section of the
rows whose index component at the level called `name` equals `key`, with
that level dropped.  Raises `KeyError` (here: `none`) when no level has
that name or when `key` occurs nowhere at it (pandas raises on an absent
key). -/
def xsLevel (df : DataFrame) (key : Value) (level : String) : Option DataFrame :=
  obind (df.indexNames.findIdx? (fun n => n = level)) fun li =>
  if (df.rows.filter (fun r => r.1[li]? = some key)).isEmpty then none
  else
    some { indexNames := df.indexNames.eraseIdx li,
           colNames := df.colNames,
           rows := (df.rows.filter (fun r => r.1[li]? = some key)).map
             (fun r => (r.1.eraseIdx li, r.2)) }

/-- `df[col]` as a series of cell values; `KeyError` (here: `none`) when no
column carries that label. -/
def getSeries (df : DataFrame) (col : String) : Option (List Value) :=
  obind (df.colNames.findIdx? (fun c => c = ColLabel.flat col)) fun p =>
  some (df.rows.map (fun r => (r.2[p]?).getD (Value.str "")))

/-- `pyomo_model_prep` from `MvsoModel/input.py` (lines 79-153), restricted
to its effect on the table attributes the claims are about: the eleven
tables are attached to the model (`global_prop` with its 'description'
column dropped), and the 'annuity-factor' column is added in place to the
'process', 'transmission' and 'storage' tables.  The derived steps of
lines 103-135 are run for their failure effects: the `.xs('In'/'Out',
level='Direction')` cross-sections and the `['ratio']`,
`['area-per-cap']`, `['area']` and `['ratio-min']` column accesses raise
`KeyError` when absent, so the whole call fails there, before any table is
mutated.  The `to_dict()` calls of lines 103-107 cannot fail, and the
`>= 0` / `> 0` filters of lines 118-119, 127 and 135 do not raise either
(the source's own comments state that non-numeric entries simply compare
false); these produce fresh derived objects that no claim queries, so
their values are not stored on the model. -/
def pyomo_model_prep (data : DataDict) (timesteps : List ℤ) : Option Prob :=
  obind (alookup data "global_prop") fun gp =>
  obind (dropCol gp "description") fun gp' =>
  obind (alookup data "site") fun site =>
  obind (alookup data "commodity") fun commodity =>
  obind (alookup data "process") fun process =>
  obind (alookup data "process_commodity") fun process_commodity =>
  obind (alookup data "transmission") fun transmission =>
  obind (alookup data "storage") fun storage =>
  obind (alookup data "demand") fun demand =>
  obind (alookup data "supim") fun supim =>
  obind (alookup data "buy_sell_price") fun buy_sell_price =>
  obind (alookup data "dsm") fun dsm =>
  obind (xsLevel process_commodity (Value.str "In") "Direction") fun pcIn =>
  obind (getSeries pcIn "ratio") fun _r_in =>
  obind (xsLevel process_commodity (Value.str "Out") "Direction") fun pcOut =>
  obind (getSeries pcOut "ratio") fun _r_out =>
  obind (getSeries process "area-per-cap") fun _proc_area =>
  obind (getSeries site "area") fun _sit_area =>
  obind (getSeries pcIn "ratio-min") fun _r_in_min_fraction =>
  obind (getSeries pcOut "ratio-min") fun _r_out_min_fraction =>
  obind (addAnnuity process) fun process' =>
  obind (addAnnuity transmission) fun transmission' =>
  obind (addAnnuity storage) fun storage' =>
  some { attrs := [("global_prop", gp'),
                   ("site", site),
                   ("commodity", commodity),
                   ("process", process'),
                   ("process_commodity", process_commodity),
                   ("transmission", transmission'),
                   ("storage", storage'),
                   ("demand", demand),
                   ("supim", supim),
                   ("buy_sell_price", buy_sell_price),
                   ("dsm", dsm)],
         timesteps := timesteps,
         pdata := none }

/-- The state of the input data dict after `pyomo_model_prep` returned:
because the annuity columns are added in place, the dict's 'process',
'transmission' and 'storage' entries now carry them; every other entry is
untouched. -/
def data_after_prep (data : DataDict) : Option DataDict :=
  obind (alookup data "process") fun process =>
  obind (addAnnuity process) fun process' =>
  obind (alookup data "transmission") fun transmission =>
  obind (addAnnuity transmission) fun transmission' =>
  obind (alookup data "storage") fun storage =>
  obind (addAnnuity storage) fun storage' =>
  some (((data.map (fun p => if p.1 = "process" then (p.1, process') else p)).map
           (fun p => if p.1 = "transmission" then (p.1, transmission') else p)).map
           (fun p => if p.1 = "storage" then (p.1, storage') else p))

/-- The cell of row `j` in the column labelled `col` (None when the column
or the row is missing). -/
def getCell (df : DataFrame) (j : ℕ) (col : String) : Option Value :=
  obind (df.colNames.findIdx? (fun c => c = ColLabel.flat col)) fun p =>
  obind (df.rows[j]?) fun r =>
  r.2[p]?

/-- `get_input` from `MvsoModel/input.py` (lines 181-205): return the
attribute of the given name when present; otherwise, when a `_data` cache
dict exists and contains the name, return its entry; otherwise raise
`ValueError`. -/
def get_input (prob : Prob) (name : String) : Except String DataFrame :=
  match alookup prob.attrs name with
  | some df => Except.ok df
  | none =>
    match prob.pdata with
    | some d =>
      match alookup d name with
      | some df => Except.ok df
      | none => Except.error "Unknown input DataFrame name!"
    | none => Except.error "Unknown input DataFrame name!"

/-- The payload of a successful `get_input` call, `none` on a raised
exception. -/
def exOk? : Except String DataFrame → Option DataFrame
  | Except.ok df => some df
  | Except.error _ => none

/-- `scenario_base` from `runme.py` (lines 11-13): returns the data dict
unchanged. -/
def scenario_base (data : DataDict) : DataDict :=
  data

/-- In-place cell multiplication: Python `x *= factor` on a numeric cell;
any non-numeric cell raises `TypeError`. -/
def mulCell (factor : ℚ) : Value → Option Value
  | .num q => some (.num (q * factor))
  | .str _ => none

/-- `df.loc[key, col] *= factor` as used by the scenario functions: fails
(pandas `KeyError`) when the column label is missing or no row carries the
index `key`; otherwise multiplies the cell of every row whose index equals
`key` and leaves all other cells untouched. -/
def locMul (df : DataFrame) (key : List Value) (col : String) (factor : ℚ) :
    Option DataFrame :=
  obind (df.colNames.findIdx? (fun c => c = ColLabel.flat col)) fun p =>
  if df.rows.any (fun r => r.1 = key) then
    obind (mapOpt (fun r =>
        if r.1 = key then
          obind (r.2[p]?) fun c =>
          obind (mulCell factor c) fun c' =>
          some (r.1, r.2.set p c')
        else some r) df.rows) fun rows =>
    some { df with rows := rows }
  else none

/-- `scenario_Node_2_process_caps` from `runme.py` (lines 16-21): halves the
'cap-up' entry of ('Node_2', 'Gas plant') and quarters that of
('Node_2', 'Biomass plant') in the 'process' table, in place. -/
def scenario_Node_2_process_caps (data : DataDict) : Option DataDict :=
  obind (alookup data "process") fun pro =>
  obind (locMul pro [Value.str "Node_2", Value.str "Gas plant"] "cap-up" (1/2)) fun pro =>
  obind (locMul pro [Value.str "Node_2", Value.str "Biomass plant"] "cap-up" (1/4)) fun pro =>
  some (data.map (fun p => if p.1 = "process" then (p.1, pro) else p))

/-- The deduplication loop of `deduplicate_legend` (`comp.py` lines 53-58):
keeps the first (handle, label) pair of each label, in input order.  `seen`
holds the pairs accepted so far (the source's parallel `new_handles` /
`new_labels` lists). -/
def dedupAux {α : Type} (seen : List (α × String)) :
    List (α × String) → List (α × String)
  | [] => seen
  | (hdl, lbl) :: rest =>
    if lbl ∈ seen.map Prod.snd then dedupAux seen rest
    else dedupAux (seen ++ [(hdl, lbl)]) rest

/-- `deduplicate_legend` from `comp.py` (lines 43-62): drop duplicate
labels (keeping the first handle of each), then sort the (label, handle)
pairs — Python's `sorted` on tuples, which after deduplication orders by
label alone — and return (handles, labels).  With nothing left to unpack
(`zip(*...)` on an empty list) the source raises `ValueError`, modelled by
`none`. -/
def deduplicate_legend {α : Type} (handles : List α) (labels : List String) :
    Option (List α × List String) :=
  let dd := dedupAux [] (handles.zip labels)
  let sortedPairs :=
    insort (fun p q : String × α => strle p.1 q.1) (dd.map (fun p => (p.2, p.1)))
  match sortedPairs with
  | [] => none
  | _ :: _ => some (sortedPairs.map Prod.snd, sortedPairs.map Prod.fst)

/-- `os.path.basename` on a POSIX path. -/
def basename (p : String) : String :=
  (pySplit p "/").getLastD p

/-- The scenario-name derivation of `compare_scenarios` (`comp.py` lines
108-112): basename, '_' to spaces, drop the '.xlsx' extension, drop the
'scenario ' prefix (every occurrence, as `str.replace` replaces all). -/
def scenario_name (rf : String) : String :=
  pyReplace (pyReplace (pyReplace (basename rf) "_" " ") ".xlsx" "") "scenario " ""

/-- The base-scenario reordering of `compare_scenarios` (`comp.py` lines
114-120): look up the first scenario name equal to 'base'
(`list.index`), pop that result file and name and append them to the end of
their lists; when no name matches, the `ValueError` is caught and both
lists are left as they are. -/
def put_base_last (result_files : List String) : List String × List String :=
  let scenario_names := result_files.map scenario_name
  match scenario_names.findIdx? (fun n => n = "base") with
  | some i =>
      (result_files.eraseIdx i ++ [result_files.getD i ""],
       scenario_names.eraseIdx i ++ [scenario_names.getD i ""])
  | none => (result_files, scenario_names)

/-- An empty table, for concrete witnesses. -/
def emptyDF : DataFrame :=
  { indexNames := [], colNames := [], rows := [] }

/-- A one-attribute model instance, for the `get_input` witness. -/
def probW : Prob :=
  { attrs := [("process", emptyDF)], timesteps := [], pdata := none }

/-- A small concrete workbook with all eleven required sheets, for
witnesses. -/
def cwb : Workbook :=
  [("Site", { headers := ["Name", "area"],
              rows := [[Value.str "Node_1", Value.num 100],
                       [Value.str "Node_2", Value.num 200]] }),
   ("Commodity", { headers := ["Site", "Commodity", "Type", "price"],
                   rows := [[Value.str "Node_2", Value.str "Gas", Value.str "Stock", Value.num 27],
                            [Value.str "Node_1", Value.str "Elec", Value.str "Demand", Value.num 0]] }),
   ("Process", { headers := ["Site", "Process", "depreciation", "wacc", "cap-up",
                             "area-per-cap"],
                 rows := [[Value.str "Node_2", Value.str "Gas plant", Value.num 20,
                           Value.num (7/100), Value.num 100, Value.num 1],
                          [Value.str "Node_2", Value.str "Biomass plant", Value.num 25,
                           Value.num (7/100), Value.num 80, Value.num 2]] }),
   ("Process-Commodity", { headers := ["Process", "Commodity", "Direction", "ratio",
                                       "ratio-min"],
                           rows := [[Value.str "Gas plant", Value.str "Gas",
                                     Value.str "In", Value.num 2, Value.num (1/4)],
                                    [Value.str "Gas plant", Value.str "Elec",
                                     Value.str "Out", Value.num 1, Value.num (1/2)]] }),
   ("Transmission", { headers := ["Site In", "Site Out", "Transmission", "Commodity",
                                  "depreciation", "wacc"],
                      rows := [[Value.str "Node_1", Value.str "Node_2", Value.str "hvac",
                                Value.str "Elec", Value.num 30, Value.num (7/100)]] }),
   ("Storage", { headers := ["Site", "Storage", "Commodity", "depreciation", "wacc"],
                 rows := [[Value.str "Node_2", Value.str "Battery", Value.str "Elec",
                           Value.num 10, Value.num (7/100)]] }),
   ("Demand", { headers := ["t", "Node_1.Elec"],
                rows := [[Value.num 1, Value.num 50]] }),
   ("SupIm", { headers := ["t", "Node_1.Solar"],
               rows := [[Value.num 1, Value.num (1/2)]] }),
   ("Buy-Sell-Price", { headers := ["t", "Elec.Buy"],
                        rows := [[Value.num 1, Value.num 10]] }),
   ("DSM", { headers := ["Site", "Commodity", "cap-max-do"],
             rows := [[Value.str "Node_1", Value.str "Elec", Value.num 5]] }),
   ("Global", { headers := ["Property", "value", "description"],
                rows := [[Value.str "CO2 limit", Value.num 150000000,
                          Value.str "annual CO2 limit"]] })]

/-- The data dict read from `cwb`. -/
def cdataW : DataDict := (read_excel cwb).getD []

/-- A concrete process table for the scenario witness. -/
def cpro : DataFrame :=
  { indexNames := ["Site", "Process"],
    colNames := [ColLabel.flat "cap-up", ColLabel.flat "inv-cost"],
    rows := [([Value.str "Node_2", Value.str "Gas plant"], [Value.num 100, Value.num 5]),
             ([Value.str "Node_2", Value.str "Biomass plant"], [Value.num 80, Value.num 3]),
             ([Value.str "Node_1", Value.str "Wind"], [Value.num 60, Value.num 2])] }

/-- A concrete data dict for the scenario witness. -/
def cdata7 : DataDict := [("process", cpro), ("site", emptyDF)]

/-- The model instance prepared from `cdataW`. -/
def cprob1 : Prob :=
  (pyomo_model_prep cdataW [0]).getD { attrs := [], timesteps := [], pdata := none }

/-- The data dict of `cwb` after `pyomo_model_prep` ran on it. -/
def cdataAfterW : DataDict := (data_after_prep cdataW).getD []

/-- The fixed sheet schema of `read_excel`: data-dict key, sheet name,
index columns (lines 30-48 of `MvsoModel/input.py`). -/
def excelSchema : List (String × String × List String) :=
  [("global_prop", "Global", ["Property"]),
   ("site", "Site", ["Name"]),
   ("commodity", "Commodity", ["Site", "Commodity", "Type"]),
   ("process", "Process", ["Site", "Process"]),
   ("process_commodity", "Process-Commodity", ["Process", "Commodity", "Direction"]),
   ("transmission", "Transmission", ["Site In", "Site Out", "Transmission", "Commodity"]),
   ("storage", "Storage", ["Site", "Storage", "Commodity"]),
   ("demand", "Demand", ["t"]),
   ("supim", "SupIm", ["t"]),
   ("buy_sell_price", "Buy-Sell-Price", ["t"]),
   ("dsm", "DSM", ["Site", "Commodity"])]

/-- The per-table post-processing of `read_excel`: the three time-series
tables get their columns split, the others are passed through. -/
def postSplit (k : String) (df : DataFrame) : Option DataFrame :=
  if k = "demand" ∨ k = "supim" ∨ k = "buy_sell_price" then splitCols df
  else some df

/-! ### Helper lemmas -/

theorem obind_eq_some {α β : Type} {x : Option α} {f : α → Option β} {b : β} :
    obind x f = some b ↔ ∃ a, x = some a ∧ f a = some b := by
  cases x <;> simp [obind]

theorem mapOpt_length {α β : Type} {f : α → Option β} :
    ∀ {xs : List α} {ys : List β}, mapOpt f xs = some ys → ys.length = xs.length := by
  intro xs
  induction xs with
  | nil => intro ys h; simp [mapOpt] at h; simp [← h]
  | cons a as ih =>
    intro ys h
    simp only [mapOpt] at h
    cases hfa : f a with
    | none => rw [hfa] at h; simp at h
    | some b =>
      rw [hfa] at h
      cases hrest : mapOpt f as with
      | none => rw [hrest] at h; simp at h
      | some bs =>
        rw [hrest] at h
        simp at h
        subst h
        simp [ih hrest]

theorem mapOpt_getElem? {α β : Type} {f : α → Option β} :
    ∀ {xs : List α} {ys : List β} {j : ℕ} {x : α},
      mapOpt f xs = some ys → xs[j]? = some x →
      ∃ y, f x = some y ∧ ys[j]? = some y := by
  intro xs
  induction xs with
  | nil => intro ys j x h hx; simp at hx
  | cons a as ih =>
    intro ys j x h hx
    simp only [mapOpt] at h
    cases hfa : f a with
    | none => rw [hfa] at h; simp at h
    | some b =>
      rw [hfa] at h
      cases hrest : mapOpt f as with
      | none => rw [hrest] at h; simp at h
      | some bs =>
        rw [hrest] at h
        simp at h
        subst h
        cases j with
        | zero =>
          simp at hx
          subst hx
          exact ⟨b, hfa, by simp⟩
        | succ j' =>
          simp at hx ⊢
          exact ih hrest hx

theorem getElem?_concat {α : Type} :
    ∀ (l : List α) (a : α), (l ++ [a])[l.length]? = some a := by
  intro l a
  induction l with
  | nil => rfl
  | cons x xs ih => simp [ih]

theorem zipWith_getElem? {α β γ : Type} {f : α → β → γ} :
    ∀ {as : List α} {bs : List β} {j : ℕ} {a : α} {b : β},
      as[j]? = some a → bs[j]? = some b →
      (List.zipWith f as bs)[j]? = some (f a b) := by
  intro as
  induction as with
  | nil => intro bs j a b ha; simp at ha
  | cons x xs ih =>
    intro bs j a b ha hb
    cases bs with
    | nil => simp at hb
    | cons y ys =>
      cases j with
      | zero => simp at ha hb; subst ha; subst hb; simp [List.zipWith]
      | succ j' => simp at ha hb ⊢; exact ih ha hb

theorem insertOrd_perm {α : Type} (le : α → α → Bool) (x : α) :
    ∀ (l : List α), (insertOrd le x l).Perm (x :: l) := by
  intro l
  induction l with
  | nil => simp [insertOrd]
  | cons y ys ih =>
    by_cases h : le x y
    · simp [insertOrd, h]
    · simp only [insertOrd, h, if_false]
      exact (List.Perm.cons y ih).trans (List.Perm.swap x y ys)

theorem insort_perm {α : Type} (le : α → α → Bool) :
    ∀ (l : List α), (insort le l).Perm l := by
  intro l
  induction l with
  | nil => simp [insort]
  | cons x xs ih =>
    exact (insertOrd_perm le x (insort le xs)).trans (List.Perm.cons x ih)

theorem pairwise_insertOrd {α : Type} {le : α → α → Bool}
    (htot : ∀ a b, le a b = true ∨ le b a = true)
    (htrans : ∀ a b c, le a b = true → le b c = true → le a c = true) (x : α) :
    ∀ {l : List α}, l.Pairwise (fun a b => le a b = true) →
      (insertOrd le x l).Pairwise (fun a b => le a b = true) := by
  intro l
  induction l with
  | nil => intro _; simp [insertOrd]
  | cons y ys ih =>
    intro hp
    rcases List.pairwise_cons.mp hp with ⟨hy, hys⟩
    by_cases h : le x y
    · simp only [insertOrd, h, if_true]
      refine List.pairwise_cons.mpr ⟨?_, hp⟩
      intro b hb
      rcases List.mem_cons.mp hb with hb | hb
      · exact hb ▸ h
      · exact htrans x y b h (hy b hb)
    · simp only [insertOrd, h, if_false]
      refine List.pairwise_cons.mpr ⟨?_, ih hys⟩
      intro b hb
      have hmem := (insertOrd_perm le x ys).mem_iff.mp hb
      rcases List.mem_cons.mp hmem with hbx | hbys
      · rw [hbx]
        rcases htot x y with hxy | hyx
        · exact absurd hxy h
        · exact hyx
      · exact hy b hbys

theorem pairwise_insort {α : Type} {le : α → α → Bool}
    (htot : ∀ a b, le a b = true ∨ le b a = true)
    (htrans : ∀ a b c, le a b = true → le b c = true → le a c = true) :
    ∀ (l : List α), (insort le l).Pairwise (fun a b => le a b = true) := by
  intro l
  induction l with
  | nil => simp [insort]
  | cons x xs ih => exact pairwise_insertOrd htot htrans x ih

theorem charListLe_total : ∀ a b : List Char, charListLe a b = true ∨ charListLe b a = true := by
  intro a
  induction a with
  | nil => intro b; left; cases b <;> simp [charListLe]
  | cons c cs ih =>
    intro b
    cases b with
    | nil => right; simp [charListLe]
    | cons d ds =>
      by_cases hcd : c = d
      · subst hcd
        simp only [charListLe, if_pos rfl]
        exact ih ds
      · have hdc : ¬ d = c := fun h => hcd h.symm
        simp only [charListLe, if_neg hcd, if_neg hdc, decide_eq_true_eq]
        rcases lt_trichotomy c d with h | h | h
        · exact Or.inl h
        · exact absurd h hcd
        · exact Or.inr h

theorem charListLe_trans :
    ∀ a b c : List Char, charListLe a b = true → charListLe b c = true →
      charListLe a c = true := by
  intro a
  induction a with
  | nil => intro b c _ _; cases c <;> simp [charListLe]
  | cons x xs ih =>
    intro b c hab hbc
    cases b with
    | nil => simp [charListLe] at hab
    | cons y ys =>
      cases c with
      | nil => simp [charListLe] at hbc
      | cons z zs =>
        by_cases hxy : x = y
        · subst hxy
          simp only [charListLe, if_pos rfl] at hab
          by_cases hyz : x = z
          · subst hyz
            simp only [charListLe, if_pos rfl] at hbc ⊢
            exact ih ys zs hab hbc
          · simp only [charListLe, if_neg hyz] at hbc ⊢
            exact hbc
        · simp only [charListLe, if_neg hxy, decide_eq_true_eq] at hab
          by_cases hyz : y = z
          · subst hyz
            simp only [charListLe, if_neg hxy, decide_eq_true_eq]
            exact hab
          · simp only [charListLe, if_neg hyz, decide_eq_true_eq] at hbc
            by_cases hxz : x = z
            · exfalso
              subst hxz
              exact absurd (lt_trans hab hbc) (lt_irrefl x)
            · simp only [charListLe, if_neg hxz, decide_eq_true_eq]
              exact lt_trans hab hbc

theorem charListLe_antisymm :
    ∀ a b : List Char, charListLe a b = true → charListLe b a = true → a = b := by
  intro a
  induction a with
  | nil =>
    intro b hab hba
    cases b with
    | nil => rfl
    | cons d ds => simp [charListLe] at hba
  | cons c cs ih =>
    intro b hab hba
    cases b with
    | nil => simp [charListLe] at hab
    | cons d ds =>
      by_cases hcd : c = d
      · subst hcd
        simp only [charListLe, if_pos rfl] at hab hba
        rw [ih ds hab hba]
      · have hdc : ¬ d = c := fun h => hcd h.symm
        simp only [charListLe, if_neg hcd, if_neg hdc, decide_eq_true_eq] at hab hba
        exact absurd (lt_trans hab hba) (lt_irrefl c)

theorem strle_total : ∀ a b : String, strle a b = true ∨ strle b a = true := by
  intro a b
  exact charListLe_total a.data b.data

theorem strle_trans :
    ∀ a b c : String, strle a b = true → strle b c = true → strle a c = true := by
  intro a b c hab hbc
  exact charListLe_trans a.data b.data c.data hab hbc

theorem strle_antisymm :
    ∀ a b : String, strle a b = true → strle b a = true → a = b := by
  intro a b hab hba
  apply String.ext
  exact charListLe_antisymm a.data b.data hab hba

theorem valueLe_total : ∀ a b : Value, Value.le a b = true ∨ Value.le b a = true := by
  intro a b
  cases a with
  | num p =>
    cases b with
    | num q =>
      simp only [Value.le, decide_eq_true_eq]
      exact le_total p q
    | str s => left; simp [Value.le]
  | str s =>
    cases b with
    | num q => right; simp [Value.le]
    | str t => exact strle_total s t

theorem valueLe_trans :
    ∀ a b c : Value, Value.le a b = true → Value.le b c = true → Value.le a c = true := by
  intro a b c hab hbc
  cases a with
  | num p =>
    cases b with
    | num q =>
      cases c with
      | num r =>
        simp only [Value.le, decide_eq_true_eq] at hab hbc ⊢
        exact le_trans hab hbc
      | str s => simp [Value.le]
    | str s =>
      cases c with
      | num r => simp [Value.le] at hbc
      | str t => simp [Value.le]
  | str s =>
    cases b with
    | num q => simp [Value.le] at hab
    | str t =>
      cases c with
      | num r => simp [Value.le] at hbc
      | str u => exact strle_trans s t u hab hbc

theorem valueLe_antisymm :
    ∀ a b : Value, Value.le a b = true → Value.le b a = true → a = b := by
  intro a b hab hba
  cases a with
  | num p =>
    cases b with
    | num q =>
      simp only [Value.le, decide_eq_true_eq] at hab hba
      exact congrArg Value.num (le_antisymm hab hba)
    | str s => simp [Value.le] at hba
  | str s =>
    cases b with
    | num q => simp [Value.le] at hab
    | str t => exact congrArg Value.str (strle_antisymm s t hab hba)

theorem lexLe_total : ∀ a b : List Value, lexLe a b = true ∨ lexLe b a = true := by
  intro a
  induction a with
  | nil => intro b; left; simp [lexLe]
  | cons x xs ih =>
    intro b
    cases b with
    | nil => right; simp [lexLe]
    | cons y ys =>
      by_cases hxy : x = y
      · subst hxy
        simp only [lexLe, if_pos rfl]
        exact ih ys
      · have hyx : ¬ y = x := fun h => hxy h.symm
        simp only [lexLe, if_neg hxy, if_neg hyx]
        exact valueLe_total x y

theorem lexLe_trans :
    ∀ a b c : List Value, lexLe a b = true → lexLe b c = true → lexLe a c = true := by
  intro a
  induction a with
  | nil => intro b c _ _; simp [lexLe]
  | cons x xs ih =>
    intro b c hab hbc
    cases b with
    | nil => simp [lexLe] at hab
    | cons y ys =>
      cases c with
      | nil => simp [lexLe] at hbc
      | cons z zs =>
        by_cases hxy : x = y
        · subst hxy
          simp only [lexLe, if_pos rfl] at hab
          by_cases hyz : x = z
          · subst hyz
            simp only [lexLe, if_pos rfl] at hbc ⊢
            exact ih ys zs hab hbc
          · simp only [lexLe, if_neg hyz] at hbc ⊢
            exact hbc
        · simp only [lexLe, if_neg hxy] at hab
          by_cases hyz : y = z
          · subst hyz
            simp only [lexLe, if_neg hxy]
            exact hab
          · simp only [lexLe, if_neg hyz] at hbc
            by_cases hxz : x = z
            · exfalso
              subst hxz
              exact hxy (valueLe_antisymm x y hab hbc)
            · simp only [lexLe, if_neg hxz]
              exact valueLe_trans x y z hab hbc

theorem rowLe_total :
    ∀ a b : List Value × List Value,
      lexLe a.1 b.1 = true ∨ lexLe b.1 a.1 = true := by
  intro a b; exact lexLe_total a.1 b.1

theorem sortIfMulti_pairwise (df : DataFrame) (h : 2 ≤ df.indexNames.length) :
    (sortIfMulti df).rows.Pairwise (fun a b => lexLe a.1 b.1 = true) := by
  simp only [sortIfMulti, if_pos h]
  exact pairwise_insort (fun a b => lexLe_total a.1 b.1)
    (fun a b c hab hbc => lexLe_trans a.1 b.1 c.1 hab hbc) df.rows

theorem dedupAux_nodup {α : Type} :
    ∀ (xs seen : List (α × String)), (seen.map Prod.snd).Nodup →
      ((dedupAux seen xs).map Prod.snd).Nodup := by
  intro xs
  induction xs with
  | nil => intro seen h; simpa [dedupAux] using h
  | cons p rest ih =>
    intro seen h
    rcases p with ⟨hdl, lbl⟩
    by_cases hmem : lbl ∈ seen.map Prod.snd
    · simp only [dedupAux, if_pos hmem]
      exact ih seen h
    · simp only [dedupAux, if_neg hmem]
      refine ih _ ?_
      simp only [List.map_append, List.map_cons, List.map_nil]
      exact List.Nodup.append h (List.nodup_singleton lbl)
        (by
          intro a ha hb
          simp at hb
          subst hb
          exact hmem ha)

theorem dedupAux_first_occ {α : Type} :
    ∀ (xs seen : List (α × String)) (p : α × String), p ∈ dedupAux seen xs →
      p ∈ seen ∨
      (p.2 ∉ seen.map Prod.snd ∧ xs.find? (fun q => q.2 == p.2) = some p) := by
  intro xs
  induction xs with
  | nil => intro seen p h; left; simpa [dedupAux] using h
  | cons hd rest ih =>
    intro seen p h
    rcases hd with ⟨hdl, lbl⟩
    by_cases hmem : lbl ∈ seen.map Prod.snd
    · simp only [dedupAux, if_pos hmem] at h
      rcases ih seen p h with hseen | ⟨hnot, hfind⟩
      · exact Or.inl hseen
      · refine Or.inr ⟨hnot, ?_⟩
        have hne : ((hdl, lbl).2 == p.2) = false := by
          simp only [beq_eq_false_iff_ne, ne_eq]
          intro hcontra
          exact hnot (hcontra ▸ hmem)
        simp only [List.find?_cons, hne]
        exact hfind
    · simp only [dedupAux, if_neg hmem] at h
      rcases ih _ p h with hseen | ⟨hnot, hfind⟩
      · rcases List.mem_append.mp hseen with hs | hp
        · exact Or.inl hs
        · simp only [List.mem_singleton] at hp
          subst hp
          refine Or.inr ⟨hmem, ?_⟩
          simp [List.find?_cons]
      · refine Or.inr ⟨?_, ?_⟩
        · intro hcontra
          exact hnot (by simp only [List.map_append] at *; exact List.mem_append_left _ hcontra)
        · have hne : ((hdl, lbl).2 == p.2) = false := by
            simp only [beq_eq_false_iff_ne, ne_eq]
            intro hcontra
            refine hnot ?_
            simp only [List.map_append, List.map_cons, List.map_nil]
            exact List.mem_append_right _ (by simp [← hcontra])
          simp only [List.find?_cons, hne]
          exact hfind

theorem dedupAux_length_ge {α : Type} :
    ∀ (xs seen : List (α × String)), seen.length ≤ (dedupAux seen xs).length := by
  intro xs
  induction xs with
  | nil => intro seen; simp [dedupAux]
  | cons hd rest ih =>
    intro seen
    rcases hd with ⟨hdl, lbl⟩
    by_cases hmem : lbl ∈ seen.map Prod.snd
    · simp only [dedupAux, if_pos hmem]
      exact ih seen
    · simp only [dedupAux, if_neg hmem]
      calc seen.length ≤ (seen ++ [(hdl, lbl)]).length := by simp
        _ ≤ _ := ih _

/-! ### Claim theorems -/

/-- C6: `scenario_base` is the identity on the input data dict; every table
is unchanged. -/
theorem scenario_base_identity (data : DataDict) :
    scenario_base data = data ∧
    ∀ k : String, alookup (scenario_base data) k = alookup data k := by
  exact ⟨rfl, fun _ => rfl⟩

/-- C8: `split_columns` ignores its separator argument; the result always
equals splitting at the literal '.'. -/
theorem split_columns_ignores_sep (columns : List String) (sep : String) :
    split_columns columns sep = split_columns columns "." := by
  rfl

/-- C3: `get_input(prob, name)` returns the attribute `name` when the model
has one; otherwise, when a `_data` cache dict exists and contains `name`,
its entry; otherwise it raises `ValueError` — and it raises exactly when
both lookups fail.  The source performs no mutation, so the embedding is a
pure function of `prob`. -/
theorem get_input_spec (prob : Prob) (name : String) :
    (∀ df, alookup prob.attrs name = some df → get_input prob name = Except.ok df) ∧
    (alookup prob.attrs name = none →
      ∀ d df, prob.pdata = some d → alookup d name = some df →
        get_input prob name = Except.ok df) ∧
    ((∃ e, get_input prob name = Except.error e) ↔
      (alookup prob.attrs name = none ∧
        ∀ d, prob.pdata = some d → alookup d name = none)) := by
  refine ⟨?_, ?_, ?_⟩
  · intro df h
    simp [get_input, h]
  · intro h d df hd hdf
    simp [get_input, h, hd, hdf]
  · constructor
    · rintro ⟨e, he⟩
      cases hattr : alookup prob.attrs name with
      | some df => simp [get_input, hattr] at he
      | none =>
        refine ⟨rfl, ?_⟩
        intro d hd
        cases hdata : alookup d name with
        | some df =>
          exfalso
          simp [get_input, hattr, hd, hdata] at he
        | none => rfl
    · rintro ⟨hattr, hdata⟩
      cases hp : prob.pdata with
      | none =>
        exact ⟨"Unknown input DataFrame name!", by simp [get_input, hattr, hp]⟩
      | some d =>
        exact ⟨"Unknown input DataFrame name!",
               by simp [get_input, hattr, hp, hdata d hp]⟩

/-- Witness for C3 at a concrete model instance. -/
theorem get_input_spec_witness : get_input probW "process" = Except.ok emptyDF :=
  (get_input_spec probW "process").1 emptyDF (by decide)

/-- C9: on a non-empty pair of equal-length lists, `deduplicate_legend`
returns equal-length lists with no duplicate label, labels sorted
ascending, and each label paired with the handle of its first occurrence in
the input; on two empty lists it raises (`ValueError` from unpacking an
empty zip) instead of returning a pair of empty lists. -/
theorem deduplicate_legend_spec {α : Type} (handles : List α) (labels : List String) :
    (handles ≠ [] → labels ≠ [] →
      ∃ h' l', deduplicate_legend handles labels = some (h', l') ∧
        h'.length = l'.length ∧
        l'.Nodup ∧
        l'.Pairwise (fun a b => strle a b = true) ∧
        (∀ (j : ℕ) (lbl : String) (hdl : α), l'[j]? = some lbl → h'[j]? = some hdl →
          (handles.zip labels).find? (fun q => q.2 == lbl) = some (hdl, lbl))) ∧
    deduplicate_legend ([] : List α) [] = none := by
  constructor
  · intro hh hl
    have hzip : ∃ p rest, handles.zip labels = p :: rest := by
      cases handles with
      | nil => exact absurd rfl hh
      | cons a as =>
        cases labels with
        | nil => exact absurd rfl hl
        | cons b bs => exact ⟨(a, b), as.zip bs, rfl⟩
    obtain ⟨p, rest, hpr⟩ := hzip
    have hddlen : 1 ≤ (dedupAux [] (handles.zip labels)).length := by
      rw [hpr]
      rcases p with ⟨hdl, lbl⟩
      have hnm : lbl ∉ ([] : List (α × String)).map Prod.snd := by simp
      simp only [dedupAux, if_neg hnm, List.nil_append]
      have := dedupAux_length_ge rest [(hdl, lbl)]
      simpa using this
    have hperm := insort_perm (fun p q : String × α => strle p.1 q.1)
        ((dedupAux [] (handles.zip labels)).map (fun p => (p.2, p.1)))
    have hsorted := @pairwise_insort (String × α)
      (fun p q : String × α => strle p.1 q.1)
      (fun a b => strle_total a.1 b.1)
      (fun a b c hab hbc => strle_trans a.1 b.1 c.1 hab hbc)
      ((dedupAux [] (handles.zip labels)).map (fun p => (p.2, p.1)))
    have hslen : 1 ≤ (insort (fun p q : String × α => strle p.1 q.1)
        ((dedupAux [] (handles.zip labels)).map (fun p => (p.2, p.1)))).length := by
      rw [hperm.length_eq]
      simpa using hddlen
    have hne : insort (fun p q : String × α => strle p.1 q.1)
        ((dedupAux [] (handles.zip labels)).map (fun p => (p.2, p.1))) ≠ [] := by
      intro hc
      rw [hc] at hslen
      simp at hslen
    obtain ⟨q, qs, hq⟩ := List.exists_cons_of_ne_nil hne
    rw [hq] at hperm hsorted
    refine ⟨(q :: qs).map Prod.snd, (q :: qs).map Prod.fst, ?_, by simp, ?_, ?_, ?_⟩
    · simp only [deduplicate_legend]
      rw [hq]
    · -- labels are free of duplicates
      have hnd : ((dedupAux [] (handles.zip labels)).map Prod.snd).Nodup :=
        dedupAux_nodup (handles.zip labels) [] (by simp)
      have hpm : ((q :: qs).map Prod.fst).Perm
          ((dedupAux [] (handles.zip labels)).map Prod.snd) := by
        have := hperm.map Prod.fst
        simpa [List.map_map, Function.comp] using this
      exact hpm.symm.nodup hnd
    · -- labels sorted ascending
      rw [List.pairwise_map]
      exact hsorted
    · -- each label carries the handle of its first occurrence
      intro j lbl hdl hlj hhj
      rw [List.getElem?_map] at hlj hhj
      cases hqj : (q :: qs)[j]? with
      | none => rw [hqj] at hlj; simp at hlj
      | some pr =>
        rw [hqj] at hlj hhj
        simp only [Option.map_some', Option.some.injEq] at hlj hhj
        have hmem : pr ∈ q :: qs := List.getElem?_mem hqj
        have hmem' : pr ∈ (dedupAux [] (handles.zip labels)).map
            (fun p => (p.2, p.1)) := hperm.mem_iff.mp hmem
        obtain ⟨d, hd, hdpr⟩ := List.mem_map.mp hmem'
        rcases dedupAux_first_occ (handles.zip labels) [] d hd with hfalse | ⟨-, hfind⟩
        · simp at hfalse
        · have hd2 : d.2 = lbl := by rw [← hlj, ← hdpr]
          have hd1 : d.1 = hdl := by rw [← hhj, ← hdpr]
          have hdeq : d = (hdl, lbl) := by
            rcases d with ⟨d1, d2⟩
            simp only at hd1 hd2
            rw [hd1, hd2]
          rw [hd2] at hfind
          rw [hdeq] at hfind
          exact hfind
  · rfl

/-- Witness for C9 at concrete legend lists. -/
theorem deduplicate_legend_spec_witness :
    deduplicate_legend [(10 : ℕ), 20, 30, 40] ["b", "a", "b", "c"] =
      some ([20, 10, 40], ["a", "b", "c"]) := by
  obtain ⟨h', l', heq, -, -, -, -⟩ :=
    (deduplicate_legend_spec [(10 : ℕ), 20, 30, 40] ["b", "a", "b", "c"]).1
      (by decide) (by decide)
  have hval : deduplicate_legend [(10 : ℕ), 20, 30, 40] ["b", "a", "b", "c"] =
      some ([20, 10, 40], ["a", "b", "c"]) := by decide
  exact hval

/-- C10: in `compare_scenarios`, when some derived scenario name equals
'base', that result file and its name are moved to the LAST position of
both lists (the accompanying comment notwithstanding); when none does, the
`ValueError` is caught and both lists keep their original order — the
reordering step never lets an exception escape. -/
theorem compare_scenarios_base_reorder (rf : List String) :
    (∀ i, (rf.map scenario_name).findIdx? (fun n => n = "base") = some i →
       ∃ f, rf[i]? = some f ∧ scenario_name f = "base" ∧
         put_base_last rf =
           (rf.eraseIdx i ++ [f], (rf.map scenario_name).eraseIdx i ++ ["base"]) ∧
         (put_base_last rf).1.getLast? = some f ∧
         (put_base_last rf).2.getLast? = some "base") ∧
    ("base" ∉ rf.map scenario_name → put_base_last rf = (rf, rf.map scenario_name)) := by
  constructor
  · intro i hfind
    obtain ⟨hlen, hp, -⟩ := List.findIdx?_eq_some_iff_getElem.mp hfind
    have hlen' : i < rf.length := by simpa using hlen
    have hmap : (rf.map scenario_name).get ⟨i, hlen⟩ =
        scenario_name (rf.get ⟨i, hlen'⟩) := by
      simp
    have hbase : scenario_name (rf.get ⟨i, hlen'⟩) = "base" := by
      rw [← hmap]
      simpa using hp
    have hrfi : rf[i]? = some (rf.get ⟨i, hlen'⟩) := by
      simp
    have hnamesi : (rf.map scenario_name).getD i "" = "base" := by
      rw [List.getD_eq_getElem?_getD]
      have h1 : (rf.map scenario_name)[i]? = some (scenario_name (rf.get ⟨i, hlen'⟩)) := by
        rw [List.getElem?_map, hrfi]
        rfl
      rw [h1, hbase]
      rfl
    have hfilesi : rf.getD i "" = rf.get ⟨i, hlen'⟩ := by
      rw [List.getD_eq_getElem?_getD, hrfi]
      rfl
    have hput : put_base_last rf =
        (rf.eraseIdx i ++ [rf.get ⟨i, hlen'⟩],
         (rf.map scenario_name).eraseIdx i ++ ["base"]) := by
      simp only [put_base_last, hfind, hfilesi, hnamesi]
    exact ⟨rf.get ⟨i, hlen'⟩, hrfi, hbase, hput,
      by rw [hput]; exact List.getLast?_concat _,
      by rw [hput]; exact List.getLast?_concat _⟩
  · intro hnone
    have hfind : (rf.map scenario_name).findIdx? (fun n => n = "base") = none := by
      rw [List.findIdx?_eq_none_iff]
      intro x hx
      simp only [decide_eq_false_iff_not]
      intro hcontra
      exact hnone (hcontra ▸ hx)
    simp only [put_base_last, hfind]

/-- Witness for C10 at a concrete result-file list. -/
theorem compare_scenarios_base_reorder_witness :
    put_base_last ["r/scenario_base.xlsx", "r/scenario_foo.xlsx"] =
      (["r/scenario_foo.xlsx", "r/scenario_base.xlsx"], ["foo", "base"]) := by
  obtain ⟨f, -, -, hput, -, -⟩ :=
    (compare_scenarios_base_reorder ["r/scenario_base.xlsx", "r/scenario_foo.xlsx"]).1
      0 (by decide)
  have : put_base_last ["r/scenario_base.xlsx", "r/scenario_foo.xlsx"] =
      (["r/scenario_foo.xlsx", "r/scenario_base.xlsx"], ["foo", "base"]) := by decide
  exact this

theorem set_index_indexNames {sh : Sheet} {cols : List String} {df : DataFrame}
    (h : set_index sh cols = some df) : df.indexNames = cols := by
  unfold set_index at h
  split at h
  · injection h with h2
    rw [← h2]
  · exact absurd h (by simp)

theorem sortIfMulti_colNames (df : DataFrame) :
    (sortIfMulti df).colNames = df.colNames := by
  unfold sortIfMulti
  split <;> rfl

theorem sortIfMulti_indexNames (df : DataFrame) :
    (sortIfMulti df).indexNames = df.indexNames := by
  unfold sortIfMulti
  split <;> rfl

theorem sortIfMulti_eq_of_single {df : DataFrame} (h : ¬ 2 ≤ df.indexNames.length) :
    sortIfMulti df = df := by
  unfold sortIfMulti
  rw [if_neg h]

/-- C5: after `read_excel`, the column labels of 'demand', 'supim' and
'buy_sell_price' are multi-level labels obtained by splitting each original
label at '.'; `split_columns` maps a non-empty label list to the split
labels in input order and returns an empty input unchanged. -/
theorem split_columns_read_excel (wb : Workbook) (data : DataDict)
    (columns : List String) (sep : String)
    (hm : read_excel wb = some data) :
    (columns ≠ [] →
      split_columns columns sep =
        columns.map (fun c => ColLabel.multi (pySplit c "."))) ∧
    split_columns [] sep = [] ∧
    (∀ k s, (k, s) ∈ [("demand", "Demand"), ("supim", "SupIm"),
        ("buy_sell_price", "Buy-Sell-Price")] →
      ∃ sh df₀ labels df, alookup wb s = some sh ∧ set_index sh ["t"] = some df₀ ∧
        flatLabels df₀.colNames = some labels ∧
        alookup data k = some df ∧
        df.colNames = split_columns labels ".") := by
  refine ⟨?_, rfl, ?_⟩
  · intro hne
    unfold split_columns
    rw [if_neg (by simpa using hne)]
  · simp only [read_excel, obind_eq_some, Option.some.injEq] at hm
    obtain ⟨siteSh, hsiteSh, site, hsite, comSh, hcomSh, commodity, hcom,
      proSh, hproSh, process, hpro, proComSh, hproComSh, process_commodity, hproCom,
      transSh, htransSh, transmission, htrans, stoSh, hstoSh, storage, hsto,
      demSh, hdemSh, demand0, hdem0, supSh, hsupSh, supim0, hsup0,
      bspSh, hbspSh, buy_sell_price0, hbsp0, dsmSh, hdsmSh, dsm, hdsm,
      gloSh, hgloSh, global_prop, hglo,
      demand, hdemSplit, supim, hsupSplit, buy_sell_price, hbspSplit, hdata⟩ := hm
    simp only [splitCols, obind_eq_some, Option.some.injEq] at hdemSplit hsupSplit hbspSplit
    obtain ⟨demLabels, hdemFlat, hdemEq⟩ := hdemSplit
    obtain ⟨supLabels, hsupFlat, hsupEq⟩ := hsupSplit
    obtain ⟨bspLabels, hbspFlat, hbspEq⟩ := hbspSplit
    intro k s hks
    subst hdata
    simp only [List.mem_cons, List.mem_singleton] at hks
    rcases hks with h | h | h | h
    rotate_right
    · exact absurd h (by simp)
    all_goals injection h with hk hs
    all_goals subst hk
    all_goals subst hs
    · exact ⟨demSh, demand0, demLabels, sortIfMulti demand, hdemSh, hdem0, hdemFlat,
        by simp [alookup, List.find?],
        by rw [sortIfMulti_colNames, ← hdemEq]⟩
    · exact ⟨supSh, supim0, supLabels, sortIfMulti supim, hsupSh, hsup0, hsupFlat,
        by simp [alookup, List.find?],
        by rw [sortIfMulti_colNames, ← hsupEq]⟩
    · exact ⟨bspSh, buy_sell_price0, bspLabels, sortIfMulti buy_sell_price,
        hbspSh, hbsp0, hbspFlat,
        by simp [alookup, List.find?],
        by rw [sortIfMulti_colNames, ← hbspEq]⟩

unseal Rat.add Rat.mul Rat.inv Rat.sub in
/-- Witness for C5: the splitting clause at a concrete label list, with the
`read_excel` hypothesis discharged on the concrete workbook `cwb`. -/
theorem split_columns_read_excel_witness :
    split_columns ["DE.Elec", "NO.Wind"] "x" =
      [ColLabel.multi ["DE", "Elec"], ColLabel.multi ["NO", "Wind"]] := by
  have h := (split_columns_read_excel cwb cdataW ["DE.Elec", "NO.Wind"] "x"
      (by decide)).1 (by decide)
  rw [h]
  decide

theorem mapOpt_isSome {α β : Type} {f : α → Option β} :
    ∀ {xs : List α}, (∀ x ∈ xs, ∃ y, f x = some y) → ∃ ys, mapOpt f xs = some ys := by
  intro xs
  induction xs with
  | nil => intro _; exact ⟨[], rfl⟩
  | cons a as ih =>
    intro h
    obtain ⟨b, hb⟩ := h a (List.mem_cons_self a as)
    obtain ⟨bs, hbs⟩ := ih (fun x hx => h x (List.mem_cons_of_mem a hx))
    exact ⟨b :: bs, by simp only [mapOpt, hb, hbs]⟩

/-- Behaviour of `df.loc[key, col] *= factor`: the matched rows have the
`col` cell multiplied, everything else is untouched. -/
theorem locMul_spec (df : DataFrame) (key : List Value) (col : String) (factor : ℚ)
    (p : ℕ)
    (hcol : df.colNames.findIdx? (fun c => c = ColLabel.flat col) = some p)
    (hexists : df.rows.any (fun r => r.1 = key) = true)
    (hcells : ∀ r ∈ df.rows, r.1 = key → ∃ q, r.2[p]? = some (Value.num q)) :
    ∃ df' : DataFrame, locMul df key col factor = some df' ∧
      df'.indexNames = df.indexNames ∧
      df'.colNames = df.colNames ∧
      df'.rows.length = df.rows.length ∧
      (∀ (j : ℕ) (r : List Value × List Value), df.rows[j]? = some r →
        ∃ r' : List Value × List Value, df'.rows[j]? = some r' ∧ r'.1 = r.1 ∧
        (r.1 ≠ key → r' = r) ∧
        (∀ c, c ≠ p → r'.2[c]? = r.2[c]?) ∧
        (r.1 = key → ∀ q, r.2[p]? = some (Value.num q) →
          r'.2[p]? = some (Value.num (q * factor)))) := by
  have hrowFn : ∀ r ∈ df.rows, ∃ r',
      (if r.1 = key then
        obind (r.2[p]?) fun c =>
        obind (mulCell factor c) fun c' =>
        some (r.1, r.2.set p c')
      else some r) = some r' := by
    intro r hr
    by_cases hk : r.1 = key
    · obtain ⟨q, hq⟩ := hcells r hr hk
      refine ⟨(r.1, r.2.set p (Value.num (q * factor))), ?_⟩
      rw [if_pos hk, hq]
      rfl
    · exact ⟨r, by rw [if_neg hk]⟩
  obtain ⟨rows', hrows'⟩ := mapOpt_isSome hrowFn
  refine ⟨{ df with rows := rows' }, ?_, rfl, rfl, ?_, ?_⟩
  · unfold locMul
    rw [hcol, obind_eq_some]
    refine ⟨p, rfl, ?_⟩
    rw [if_pos hexists, obind_eq_some]
    exact ⟨rows', hrows', rfl⟩
  · exact (mapOpt_length hrows').symm ▸ rfl
  · intro j r hjr
    obtain ⟨r', hfr, hr'⟩ := mapOpt_getElem? hrows' hjr
    by_cases hk : r.1 = key
    · obtain ⟨q, hq⟩ := hcells r (List.getElem?_mem hjr) hk
      rw [if_pos hk, hq] at hfr
      simp only [obind, mulCell, Option.some.injEq] at hfr
      have hplen : p < r.2.length := (List.getElem?_eq_some_iff.mp hq).1
      refine ⟨r', hr', ?_, fun hc => absurd hk hc, ?_, ?_⟩
      · rw [← hfr]
      · intro c hc
        rw [← hfr]
        exact List.getElem?_set_ne (fun h => hc h.symm)
      · intro _ q2 hq2
        rw [hq] at hq2
        injection hq2 with hq2
        injection hq2 with hq3
        subst hq3
        rw [← hfr]
        simp only
        rw [List.getElem?_set_self hplen]
    · rw [if_neg hk] at hfr
      injection hfr with hfr
      subst hfr
      exact ⟨r, hr', rfl, fun _ => rfl, fun c _ => rfl,
        fun hcontra => absurd hcontra hk⟩

theorem alookup_map_update {α : Type} :
    ∀ (l : List (String × α)) (k : String) (v' : α),
      ((∃ v, alookup l k = some v) →
        alookup (l.map (fun p => if p.1 = k then (p.1, v') else p)) k = some v') ∧
      (∀ k2, k2 ≠ k →
        alookup (l.map (fun p => if p.1 = k then (p.1, v') else p)) k2 = alookup l k2) := by
  intro l
  induction l with
  | nil => intro k v'; exact ⟨fun ⟨v, hv⟩ => by simp [alookup] at hv, fun _ _ => rfl⟩
  | cons a rest ih =>
    intro k v'
    constructor
    · rintro ⟨v, hv⟩
      by_cases hak : a.1 = k
      · simp only [List.map_cons, if_pos hak, alookup, List.find?_cons,
          beq_iff_eq, hak]
        simp
      · have hne : (a.1 == k) = false := by simp [hak]
        simp only [alookup, List.find?_cons, hne] at hv
        simp only [List.map_cons, if_neg hak, alookup, List.find?_cons, hne]
        exact (ih k v').1 ⟨v, hv⟩
    · intro k2 hk2
      by_cases hak : a.1 = k
      · have hne : (a.1 == k2) = false := by
          simp only [beq_eq_false_iff_ne, ne_eq]
          intro hcontra
          exact hk2 (by rw [← hcontra, hak])
        simp only [List.map_cons, if_pos hak, alookup, List.find?_cons, hne]
        exact (ih k v').2 k2 hk2
      · by_cases hak2 : a.1 = k2
        · simp only [List.map_cons, if_neg hak, alookup, List.find?_cons,
            show (a.1 == k2) = true by simp [hak2]]
        · simp only [List.map_cons, if_neg hak, alookup, List.find?_cons,
            show (a.1 == k2) = false by simp [hak2]]
          exact (ih k v').2 k2 hk2

/-- C7: `scenario_Node_2_process_caps` halves the 'cap-up' entry of
('Node_2', 'Gas plant'), quarters that of ('Node_2', 'Biomass plant'), and
changes nothing else: no other cell of the 'process' table and no other
table of the data dict. -/
theorem scenario_Node_2_process_caps_spec (data : DataDict) (pro : DataFrame) (p : ℕ)
    (hpro : alookup data "process" = some pro)
    (hcol : pro.colNames.findIdx? (fun c => c = ColLabel.flat "cap-up") = some p)
    (hgas : pro.rows.any (fun r => r.1 = [Value.str "Node_2", Value.str "Gas plant"]) = true)
    (hbio : pro.rows.any (fun r => r.1 = [Value.str "Node_2", Value.str "Biomass plant"]) = true)
    (hcells : ∀ r ∈ pro.rows,
      (r.1 = [Value.str "Node_2", Value.str "Gas plant"] ∨
       r.1 = [Value.str "Node_2", Value.str "Biomass plant"]) →
      ∃ q, r.2[p]? = some (Value.num q)) :
    ∃ (data' : DataDict) (pro' : DataFrame),
      scenario_Node_2_process_caps data = some data' ∧
      (∀ k, k ≠ "process" → alookup data' k = alookup data k) ∧
      alookup data' "process" = some pro' ∧
      pro'.indexNames = pro.indexNames ∧
      pro'.colNames = pro.colNames ∧
      pro'.rows.length = pro.rows.length ∧
      (∀ (j : ℕ) (r : List Value × List Value), pro.rows[j]? = some r →
        ∃ r' : List Value × List Value, pro'.rows[j]? = some r' ∧ r'.1 = r.1 ∧
        (r.1 ≠ [Value.str "Node_2", Value.str "Gas plant"] →
         r.1 ≠ [Value.str "Node_2", Value.str "Biomass plant"] → r' = r) ∧
        (∀ c, c ≠ p → r'.2[c]? = r.2[c]?) ∧
        (r.1 = [Value.str "Node_2", Value.str "Gas plant"] →
          ∀ q, r.2[p]? = some (Value.num q) →
            r'.2[p]? = some (Value.num (q * (1/2)))) ∧
        (r.1 = [Value.str "Node_2", Value.str "Biomass plant"] →
          ∀ q, r.2[p]? = some (Value.num q) →
            r'.2[p]? = some (Value.num (q * (1/4))))) := by
  have hkeys : [Value.str "Node_2", Value.str "Gas plant"] ≠
      [Value.str "Node_2", Value.str "Biomass plant"] := by decide
  obtain ⟨pro1, h1eq, h1idx, h1col, h1len, h1rows⟩ :=
    locMul_spec pro [Value.str "Node_2", Value.str "Gas plant"] "cap-up" (1/2) p
      hcol hgas (fun r hr hk => hcells r hr (Or.inl hk))
  have hcol1 : pro1.colNames.findIdx? (fun c => c = ColLabel.flat "cap-up") = some p := by
    rw [h1col]
    exact hcol
  have hbio1 : pro1.rows.any
      (fun r => r.1 = [Value.str "Node_2", Value.str "Biomass plant"]) = true := by
    obtain ⟨r, hr, hkr⟩ := List.any_eq_true.mp hbio
    obtain ⟨j, hj⟩ := List.getElem?_of_mem hr
    obtain ⟨r1, hj1, hidx1, -, -, -⟩ := h1rows j r hj
    refine List.any_eq_true.mpr ⟨r1, List.getElem?_mem hj1, ?_⟩
    rw [hidx1]
    exact hkr
  have hcells1 : ∀ r1 ∈ pro1.rows,
      r1.1 = [Value.str "Node_2", Value.str "Biomass plant"] →
      ∃ q, r1.2[p]? = some (Value.num q) := by
    intro r1 hr1 hk1
    obtain ⟨j, hj1⟩ := List.getElem?_of_mem hr1
    have hlt : j < pro.rows.length := by
      have := (List.getElem?_eq_some_iff.mp hj1).1
      rw [h1len] at this
      exact this
    have hj : pro.rows[j]? = some (pro.rows.get ⟨j, hlt⟩) := by simp
    obtain ⟨r1b, hj1b, hidx1, huneq1, -, -⟩ := h1rows j _ hj
    rw [hj1b] at hj1
    injection hj1 with heq
    have hrbio : (pro.rows.get ⟨j, hlt⟩).1 =
        [Value.str "Node_2", Value.str "Biomass plant"] := by
      rw [← hidx1, heq]
      exact hk1
    have hreq : r1b = pro.rows.get ⟨j, hlt⟩ :=
      huneq1 (fun hc => hkeys (hc.symm.trans hrbio))
    obtain ⟨q, hq⟩ := hcells _ (List.getElem?_mem hj) (Or.inr hrbio)
    refine ⟨q, ?_⟩
    rw [← heq, hreq]
    exact hq
  obtain ⟨pro2, h2eq, h2idx, h2col, h2len, h2rows⟩ :=
    locMul_spec pro1 [Value.str "Node_2", Value.str "Biomass plant"] "cap-up" (1/4) p
      hcol1 hbio1 hcells1
  refine ⟨data.map (fun e => if e.1 = "process" then (e.1, pro2) else e), pro2,
    ?_, ?_, ?_, ?_, ?_, ?_, ?_⟩
  · unfold scenario_Node_2_process_caps
    rw [hpro, obind_eq_some]
    refine ⟨pro, rfl, ?_⟩
    rw [obind_eq_some]
    refine ⟨pro1, h1eq, ?_⟩
    rw [obind_eq_some]
    exact ⟨pro2, h2eq, rfl⟩
  · intro k hk
    exact (alookup_map_update data "process" pro2).2 k hk
  · exact (alookup_map_update data "process" pro2).1 ⟨pro, hpro⟩
  · rw [h2idx, h1idx]
  · rw [h2col, h1col]
  · rw [h2len, h1len]
  · intro j r hjr
    obtain ⟨r1, hj1, hidx1, huneq1, hother1, hmul1⟩ := h1rows j r hjr
    obtain ⟨r2, hj2, hidx2, huneq2, hother2, hmul2⟩ := h2rows j r1 hj1
    refine ⟨r2, hj2, hidx2.trans hidx1, ?_, ?_, ?_, ?_⟩
    · intro hng hnb
      have hr1 : r1 = r := huneq1 hng
      have hr2 : r2 = r1 := huneq2 (by rw [hidx1]; exact hnb)
      rw [hr2, hr1]
    · intro c hc
      exact (hother2 c hc).trans (hother1 c hc)
    · intro hkgas q hq
      have hr1gas : r1.1 = [Value.str "Node_2", Value.str "Gas plant"] :=
        hidx1.trans hkgas
      have hr2 : r2 = r1 := huneq2 (fun hc => hkeys (hr1gas.symm.trans hc))
      rw [hr2]
      exact hmul1 hkgas q hq
    · intro hkbio q hq
      have hr1 : r1 = r := huneq1 (fun hc => hkeys (hc.symm.trans hkbio))
      refine hmul2 (by rw [hidx1]; exact hkbio) q ?_
      rw [hr1]
      exact hq

unseal Rat.add Rat.mul Rat.inv Rat.sub in
/-- Witness for C7 at a concrete data dict: the Gas plant cap-up is halved,
the Biomass plant cap-up quartered, everything else untouched. -/
theorem scenario_Node_2_process_caps_spec_witness :
    scenario_Node_2_process_caps cdata7 =
      some [("process",
        { indexNames := ["Site", "Process"],
          colNames := [ColLabel.flat "cap-up", ColLabel.flat "inv-cost"],
          rows := [([Value.str "Node_2", Value.str "Gas plant"],
                    [Value.num 50, Value.num 5]),
                   ([Value.str "Node_2", Value.str "Biomass plant"],
                    [Value.num 20, Value.num 3]),
                   ([Value.str "Node_1", Value.str "Wind"],
                    [Value.num 60, Value.num 2])] }),
        ("site", emptyDF)] := by
  obtain ⟨data', pro', heq, -, -, -, -, -, -⟩ :=
    scenario_Node_2_process_caps_spec cdata7 cpro 0 (by decide) (by decide)
      (by decide) (by decide)
      (by
        intro r hr hor
        simp only [cpro, List.mem_cons, List.mem_singleton] at hr
        rcases hr with h | h | h | h
        · subst h; exact ⟨100, by decide⟩
        · subst h; exact ⟨80, by decide⟩
        · subst h; exact ⟨60, by decide⟩
        · exact absurd h (by simp))
  have hval : scenario_Node_2_process_caps cdata7 =
      some [("process",
        { indexNames := ["Site", "Process"],
          colNames := [ColLabel.flat "cap-up", ColLabel.flat "inv-cost"],
          rows := [([Value.str "Node_2", Value.str "Gas plant"],
                    [Value.num 50, Value.num 5]),
                   ([Value.str "Node_2", Value.str "Biomass plant"],
                    [Value.num 20, Value.num 3]),
                   ([Value.str "Node_1", Value.str "Wind"],
                    [Value.num 60, Value.num 2])] }),
        ("site", emptyDF)] := by decide
  exact hval

theorem findIdx?_append_one {α : Type} {p : α → Bool} {x : α} :
    ∀ {l : List α}, l.findIdx? p = none → p x = true →
      (l ++ [x]).findIdx? p = some l.length := by
  intro l
  induction l with
  | nil => intro _ hx; simp [List.findIdx?_cons, hx]
  | cons a as ih =>
    intro hnone hx
    rw [List.cons_append]
    simp only [List.findIdx?_cons, List.findIdx?_succ] at hnone ⊢
    by_cases ha : p a
    · simp [ha] at hnone
    · simp only [ha, cond_false] at hnone ⊢
      have has : as.findIdx? p = none := by
        cases h2 : as.findIdx? p with
        | none => rfl
        | some v => rw [h2] at hnone; simp at hnone
      rw [ih has hx]
      simp

theorem findIdx?_lt_length {α : Type} {p : α → Bool} {l : List α} {i : ℕ}
    (h : l.findIdx? p = some i) : i < l.length :=
  (List.findIdx?_eq_some_iff_getElem.mp h).1

/-- The effect of the annuity-column addition on one row: the new
'annuity-factor' cell is `annuity_factor` of the row's 'depreciation' and
'wacc' cells. -/
theorem addAnnuity_spec (df df' : DataFrame)
    (h : addAnnuity df = some df')
    (hrect : ∀ r ∈ df.rows, r.2.length = df.colNames.length)
    (j n : ℕ) (i : ℚ)
    (hd : getCell df j "depreciation" = some (Value.num (n : ℚ)))
    (hw : getCell df j "wacc" = some (Value.num i)) :
    getCell df' j "annuity-factor" = some (Value.num (annuity_factor n i)) := by
  unfold addAnnuity at h
  rw [obind_eq_some] at h
  obtain ⟨d, hdidx, h⟩ := h
  rw [obind_eq_some] at h
  obtain ⟨w, hwidx, h⟩ := h
  rw [obind_eq_some] at h
  obtain ⟨vals, hvals, hset⟩ := h
  injection hset with hset
  unfold getCell at hd hw
  rw [obind_eq_some] at hd hw
  obtain ⟨d0, hd0, hd⟩ := hd
  obtain ⟨w0, hw0, hw⟩ := hw
  rw [hdidx] at hd0
  rw [hwidx] at hw0
  injection hd0 with hd0
  injection hw0 with hw0
  subst hd0
  subst hw0
  rw [obind_eq_some] at hd hw
  obtain ⟨r, hr, hd⟩ := hd
  obtain ⟨r2, hr2, hw⟩ := hw
  rw [hr] at hr2
  injection hr2 with hr2
  subst hr2
  -- the value computed for row j
  obtain ⟨v, hv, hvj⟩ := mapOpt_getElem? hvals hr
  rw [obind_eq_some] at hv
  obtain ⟨dv, hdv, hv⟩ := hv
  rw [obind_eq_some] at hv
  obtain ⟨wv, hwv, hv⟩ := hv
  rw [hd] at hdv
  rw [hw] at hwv
  injection hdv with hdv
  injection hwv with hwv
  subst hdv
  subst hwv
  have hn1 : ((n : ℚ).den = 1 ∧ 0 ≤ (n : ℚ)) := by
    constructor
    · exact Rat.den_natCast n
    · exact Nat.cast_nonneg n
  rw [annuityCell, if_pos hn1] at hv
  injection hv with hv
  have hnum : (n : ℚ).num.toNat = n := by
    rw [Rat.num_natCast]
    exact Int.toNat_natCast n
  rw [hnum] at hv
  -- length facts
  have hplen : r.2.length = df.colNames.length := hrect r (List.getElem?_mem hr)
  -- now evaluate getCell on the updated frame
  subst hset
  unfold setColumn
  cases haf : df.colNames.findIdx? (fun c => c = ColLabel.flat "annuity-factor") with
  | some pos =>
    simp only
    unfold getCell
    rw [obind_eq_some]
    refine ⟨pos, haf, ?_⟩
    rw [obind_eq_some]
    refine ⟨(r.1, r.2.set pos v), zipWith_getElem? hr hvj, ?_⟩
    simp only
    rw [List.getElem?_set_self (by rw [hplen]; exact findIdx?_lt_length haf), ← hv]
  | none =>
    simp only
    unfold getCell
    rw [obind_eq_some]
    refine ⟨df.colNames.length, ?_, ?_⟩
    · exact findIdx?_append_one haf (by simp)
    · rw [obind_eq_some]
      refine ⟨(r.1, r.2 ++ [v]), zipWith_getElem? hr hvj, ?_⟩
      simp only
      rw [← hplen, getElem?_concat, ← hv]

/-- C1: after `pyomo_model_prep`, each of the 'process', 'transmission' and
'storage' tables carries an 'annuity-factor' column whose value in every
row is `annuity_factor` of that row's 'depreciation' and 'wacc' entries,
i.e. `(1+i)^n * i / ((1+i)^n - 1)` for depreciation period `n` and wacc
`i`. -/
theorem annuity_factor_columns (data : DataDict) (ts : List ℤ) (m : Prob)
    (tbl : String) (pt pt' : DataFrame) (j n : ℕ) (i : ℚ)
    (htbl : tbl = "process" ∨ tbl = "transmission" ∨ tbl = "storage")
    (hm : pyomo_model_prep data ts = some m)
    (hp : alookup data tbl = some pt)
    (hp' : alookup m.attrs tbl = some pt')
    (hrect : ∀ r ∈ pt.rows, r.2.length = pt.colNames.length)
    (hd : getCell pt j "depreciation" = some (Value.num (n : ℚ)))
    (hw : getCell pt j "wacc" = some (Value.num i)) :
    getCell pt' j "annuity-factor" =
      some (Value.num ((1 + i) ^ n * i / ((1 + i) ^ n - 1))) := by
  simp only [pyomo_model_prep, obind_eq_some, Option.some.injEq] at hm
  obtain ⟨gp, hgp, gp', hgp', site, hsite, commodity, hcom, process, hproc,
    process_commodity, hprocCom, transmission, htrans, storage, hsto, demand, hdem,
    supim, hsup, buy_sell_price, hbsp, dsm, hdsm, pcIn, hpcIn, rin, hrin,
    pcOut, hpcOut, rout, hrout, pa, hpa, sa, hsa, rim, hrim, rom, hrom,
    process', hproc', transmission', htrans', storage', hsto', hmEq⟩ := hm
  rcases htbl with h | h | h <;> subst h
  · rw [hproc] at hp
    injection hp with hp
    subst hp
    have hpt' : pt' = process' := by
      rw [← hmEq] at hp'
      simp only [alookup, List.find?] at hp'
      simp at hp'
      exact hp'.symm
    subst hpt'
    exact addAnnuity_spec _ _ hproc' hrect j n i hd hw
  · rw [htrans] at hp
    injection hp with hp
    subst hp
    have hpt' : pt' = transmission' := by
      rw [← hmEq] at hp'
      simp only [alookup, List.find?] at hp'
      simp at hp'
      exact hp'.symm
    subst hpt'
    exact addAnnuity_spec _ _ htrans' hrect j n i hd hw
  · rw [hsto] at hp
    injection hp with hp
    subst hp
    have hpt' : pt' = storage' := by
      rw [← hmEq] at hp'
      simp only [alookup, List.find?] at hp'
      simp at hp'
      exact hp'.symm
    subst hpt'
    exact addAnnuity_spec _ _ hsto' hrect j n i hd hw

unseal Rat.add Rat.mul Rat.inv Rat.sub in
/-- Witness for C1: in the model prepared from the concrete workbook, the
first 'process' row (Biomass plant, depreciation 25 years, wacc 0.07) gets
the annuity factor (1.07)^25 * 0.07 / ((1.07)^25 - 1). -/
theorem annuity_factor_columns_witness :
    getCell ((alookup cprob1.attrs "process").getD emptyDF) 0 "annuity-factor" =
      some (Value.num ((1 + 7/100) ^ 25 * (7/100) / ((1 + 7/100) ^ 25 - 1))) := by
  exact annuity_factor_columns cdataW [0] cprob1 "process"
    ((alookup cdataW "process").getD emptyDF)
    ((alookup cprob1.attrs "process").getD emptyDF)
    0 25 (7/100) (Or.inl rfl) (by decide) (by decide) (by decide) (by decide)
    (by decide) (by decide)

/-- C2 (amended): `get_input` after `pyomo_model_prep` round-trips the ten
keys other than 'global_prop' against the data dict as it stands after the
call — identical tables for the seven untouched keys, and the tables with
the in-place-added 'annuity-factor' column for 'process', 'transmission'
and 'storage' — while for 'global_prop' it returns the table with its
'description' column dropped, which differs from data['global_prop']. -/
theorem get_input_round_trip (data : DataDict) (ts : List ℤ) (m : Prob)
    (hm : pyomo_model_prep data ts = some m) :
    (∀ data', data_after_prep data = some data' →
      ∀ k, k ∈ ["site", "commodity", "process", "process_commodity", "transmission",
                "storage", "demand", "supim", "buy_sell_price", "dsm"] →
      ∃ df, alookup data' k = some df ∧ get_input m k = Except.ok df) ∧
    (∃ gp gp', alookup data "global_prop" = some gp ∧
      dropCol gp "description" = some gp' ∧
      get_input m "global_prop" = Except.ok gp' ∧ gp' ≠ gp) := by
  simp only [pyomo_model_prep, obind_eq_some, Option.some.injEq] at hm
  obtain ⟨gp, hgp, gp', hgp', site, hsite, commodity, hcom, process, hproc,
    process_commodity, hprocCom, transmission, htrans, storage, hsto, demand, hdem,
    supim, hsup, buy_sell_price, hbsp, dsm, hdsm, pcIn, hpcIn, rin, hrin,
    pcOut, hpcOut, rout, hrout, pa, hpa, sa, hsa, rim, hrim, rom, hrom,
    process', hproc', transmission', htrans', storage', hsto', hmEq⟩ := hm
  constructor
  · intro data' hafter k hk
    simp only [data_after_prep, obind_eq_some, Option.some.injEq] at hafter
    obtain ⟨processB, hprocB, processB', hprocB', transmissionB, htransB,
      transmissionB', htransB', storageB, hstoB, storageB', hstoB', hdataEq⟩ := hafter
    rw [hproc] at hprocB
    injection hprocB with hprocB
    subst hprocB
    rw [htrans] at htransB
    injection htransB with htransB
    subst htransB
    rw [hsto] at hstoB
    injection hstoB with hstoB
    subst hstoB
    rw [hproc'] at hprocB'
    injection hprocB' with hprocB'
    subst hprocB'
    rw [htrans'] at htransB'
    injection htransB' with htransB'
    subst htransB'
    rw [hsto'] at hstoB'
    injection hstoB' with hstoB'
    subst hstoB'
    subst hdataEq
    subst hmEq
    -- shorthand for the three in-place updates
    have hup1 := alookup_map_update data "process" process'
    have hup2 := alookup_map_update
      (data.map (fun p => if p.1 = "process" then (p.1, process') else p))
      "transmission" transmission'
    have hup3 := alookup_map_update
      ((data.map (fun p => if p.1 = "process" then (p.1, process') else p)).map
        (fun p => if p.1 = "transmission" then (p.1, transmission') else p))
      "storage" storage'
    simp only [List.mem_cons, List.mem_singleton] at hk
    rcases hk with h | h | h | h | h | h | h | h | h | h | h
    rotate_right
    · exact absurd h (by simp)
    all_goals subst h
    · exact ⟨site, by
        rw [hup3.2 "site" (by decide), hup2.2 "site" (by decide),
          hup1.2 "site" (by decide)]
        exact hsite,
        by simp [get_input, alookup, List.find?]⟩
    · exact ⟨commodity, by
        rw [hup3.2 "commodity" (by decide), hup2.2 "commodity" (by decide),
          hup1.2 "commodity" (by decide)]
        exact hcom,
        by simp [get_input, alookup, List.find?]⟩
    · exact ⟨process', by
        rw [hup3.2 "process" (by decide), hup2.2 "process" (by decide)]
        exact hup1.1 ⟨process, hproc⟩,
        by simp [get_input, alookup, List.find?]⟩
    · exact ⟨process_commodity, by
        rw [hup3.2 "process_commodity" (by decide), hup2.2 "process_commodity" (by decide),
          hup1.2 "process_commodity" (by decide)]
        exact hprocCom,
        by simp [get_input, alookup, List.find?]⟩
    · exact ⟨transmission', by
        rw [hup3.2 "transmission" (by decide)]
        exact hup2.1 ⟨transmission, by
          rw [hup1.2 "transmission" (by decide)]
          exact htrans⟩,
        by simp [get_input, alookup, List.find?]⟩
    · exact ⟨storage', by
        refine hup3.1 ⟨storage, ?_⟩
        rw [hup2.2 "storage" (by decide), hup1.2 "storage" (by decide)]
        exact hsto,
        by simp [get_input, alookup, List.find?]⟩
    · exact ⟨demand, by
        rw [hup3.2 "demand" (by decide), hup2.2 "demand" (by decide),
          hup1.2 "demand" (by decide)]
        exact hdem,
        by simp [get_input, alookup, List.find?]⟩
    · exact ⟨supim, by
        rw [hup3.2 "supim" (by decide), hup2.2 "supim" (by decide),
          hup1.2 "supim" (by decide)]
        exact hsup,
        by simp [get_input, alookup, List.find?]⟩
    · exact ⟨buy_sell_price, by
        rw [hup3.2 "buy_sell_price" (by decide), hup2.2 "buy_sell_price" (by decide),
          hup1.2 "buy_sell_price" (by decide)]
        exact hbsp,
        by simp [get_input, alookup, List.find?]⟩
    · exact ⟨dsm, by
        rw [hup3.2 "dsm" (by decide), hup2.2 "dsm" (by decide),
          hup1.2 "dsm" (by decide)]
        exact hdsm,
        by simp [get_input, alookup, List.find?]⟩
  · refine ⟨gp, gp', hgp, hgp', ?_, ?_⟩
    · subst hmEq
      simp [get_input, alookup, List.find?]
    · -- the dropped frame has one column fewer
      unfold dropCol at hgp'
      rw [obind_eq_some] at hgp'
      obtain ⟨p, hpidx, hgp'⟩ := hgp'
      injection hgp' with hgp'
      intro hcontra
      have hlen : gp'.colNames.length = gp.colNames.length - 1 := by
        rw [← hgp']
        exact List.length_eraseIdx_of_lt (findIdx?_lt_length hpidx)
      have hpos : 0 < gp.colNames.length :=
        lt_of_le_of_lt (Nat.zero_le _) (findIdx?_lt_length hpidx)
      rw [hcontra] at hlen
      omega

unseal Rat.add Rat.mul Rat.inv Rat.sub in
/-- Counterexample for C2 as stated: for the data dict read from the
concrete workbook `cwb`, `pyomo_model_prep` succeeds, yet `get_input` on
the resulting model returns for 'global_prop' a frame different from
data['global_prop'] (its 'description' column was dropped). -/
theorem get_input_round_trip_counterexample :
    read_excel cwb = some cdataW ∧
    (pyomo_model_prep cdataW [0]).isSome = true ∧
    (pyomo_model_prep cdataW [0]).map
        (fun m => exOk? (get_input m "global_prop")) ≠
      some (alookup cdataW "global_prop") := by
  decide

unseal Rat.add Rat.mul Rat.inv Rat.sub in
/-- Witness for C2 (amended) at the concrete workbook data: the 'site'
table round-trips unchanged through the prepared model. -/
theorem get_input_round_trip_witness :
    get_input cprob1 "site" = Except.ok ((alookup cdataAfterW "site").getD emptyDF) := by
  obtain ⟨df, hdf, hgi⟩ :=
    ((get_input_round_trip cdataW [0] cprob1 (by decide)).1
      cdataAfterW (by decide) "site" (by decide))
  have h2 : (alookup cdataAfterW "site").getD emptyDF = df := by
    rw [hdf]
    rfl
  rw [h2]
  exact hgi

theorem splitCols_indexNames {df df' : DataFrame} (h : splitCols df = some df') :
    df'.indexNames = df.indexNames := by
  unfold splitCols at h
  rw [obind_eq_some] at h
  obtain ⟨l, -, h⟩ := h
  injection h with h
  rw [← h]

/-- C4: `read_excel` returns a dict with exactly the eleven fixed keys,
each table parsed from its fixed sheet with its fixed index columns (the
three time-series tables additionally getting their columns split), and
every MultiIndexed table sorted by its index. -/
theorem read_excel_schema (wb : Workbook) (data : DataDict)
    (hm : read_excel wb = some data) :
    data.map Prod.fst = ["global_prop", "site", "commodity", "process",
      "process_commodity", "transmission", "storage", "demand", "supim",
      "buy_sell_price", "dsm"] ∧
    (∀ k s cols, (k, s, cols) ∈ excelSchema →
      ∃ sh df₀ df₁, alookup wb s = some sh ∧ set_index sh cols = some df₀ ∧
        postSplit k df₀ = some df₁ ∧
        alookup data k = some (sortIfMulti df₁) ∧
        (sortIfMulti df₁).indexNames = cols) ∧
    (∀ e, e ∈ data → 2 ≤ e.2.indexNames.length →
      e.2.rows.Pairwise (fun a b => lexLe a.1 b.1 = true)) := by
  simp only [read_excel, obind_eq_some, Option.some.injEq] at hm
  obtain ⟨siteSh, hsiteSh, site, hsite, comSh, hcomSh, commodity, hcom,
    proSh, hproSh, process, hpro, proComSh, hproComSh, process_commodity, hproCom,
    transSh, htransSh, transmission, htrans, stoSh, hstoSh, storage, hsto,
    demSh, hdemSh, demand0, hdem0, supSh, hsupSh, supim0, hsup0,
    bspSh, hbspSh, buy_sell_price0, hbsp0, dsmSh, hdsmSh, dsm, hdsm,
    gloSh, hgloSh, global_prop, hglo,
    demand, hdemSplit, supim, hsupSplit, buy_sell_price, hbspSplit, hdata⟩ := hm
  refine ⟨?_, ?_, ?_⟩
  · rw [← hdata]
    rfl
  · intro k s cols hks
    subst hdata
    simp only [excelSchema, List.mem_cons, List.mem_singleton] at hks
    rcases hks with h | h | h | h | h | h | h | h | h | h | h | h
    rotate_right
    · exact absurd h (by simp)
    all_goals injection h with hk h
    all_goals injection h with hs hcols
    all_goals subst hk
    all_goals subst hs
    all_goals subst hcols
    · exact ⟨gloSh, global_prop, global_prop, hgloSh, hglo,
        by unfold postSplit; rw [if_neg (by decide)],
        by simp [alookup, List.find?],
        by rw [sortIfMulti_indexNames]; exact set_index_indexNames hglo⟩
    · exact ⟨siteSh, site, site, hsiteSh, hsite,
        by unfold postSplit; rw [if_neg (by decide)],
        by simp [alookup, List.find?],
        by rw [sortIfMulti_indexNames]; exact set_index_indexNames hsite⟩
    · exact ⟨comSh, commodity, commodity, hcomSh, hcom,
        by unfold postSplit; rw [if_neg (by decide)],
        by simp [alookup, List.find?],
        by rw [sortIfMulti_indexNames]; exact set_index_indexNames hcom⟩
    · exact ⟨proSh, process, process, hproSh, hpro,
        by unfold postSplit; rw [if_neg (by decide)],
        by simp [alookup, List.find?],
        by rw [sortIfMulti_indexNames]; exact set_index_indexNames hpro⟩
    · exact ⟨proComSh, process_commodity, process_commodity, hproComSh, hproCom,
        by unfold postSplit; rw [if_neg (by decide)],
        by simp [alookup, List.find?],
        by rw [sortIfMulti_indexNames]; exact set_index_indexNames hproCom⟩
    · exact ⟨transSh, transmission, transmission, htransSh, htrans,
        by unfold postSplit; rw [if_neg (by decide)],
        by simp [alookup, List.find?],
        by rw [sortIfMulti_indexNames]; exact set_index_indexNames htrans⟩
    · exact ⟨stoSh, storage, storage, hstoSh, hsto,
        by unfold postSplit; rw [if_neg (by decide)],
        by simp [alookup, List.find?],
        by rw [sortIfMulti_indexNames]; exact set_index_indexNames hsto⟩
    · exact ⟨demSh, demand0, demand, hdemSh, hdem0,
        by unfold postSplit; rw [if_pos (by decide)]; exact hdemSplit,
        by simp [alookup, List.find?],
        by rw [sortIfMulti_indexNames, splitCols_indexNames hdemSplit]
           exact set_index_indexNames hdem0⟩
    · exact ⟨supSh, supim0, supim, hsupSh, hsup0,
        by unfold postSplit; rw [if_pos (by decide)]; exact hsupSplit,
        by simp [alookup, List.find?],
        by rw [sortIfMulti_indexNames, splitCols_indexNames hsupSplit]
           exact set_index_indexNames hsup0⟩
    · exact ⟨bspSh, buy_sell_price0, buy_sell_price, hbspSh, hbsp0,
        by unfold postSplit; rw [if_pos (by decide)]; exact hbspSplit,
        by simp [alookup, List.find?],
        by rw [sortIfMulti_indexNames, splitCols_indexNames hbspSplit]
           exact set_index_indexNames hbsp0⟩
    · exact ⟨dsmSh, dsm, dsm, hdsmSh, hdsm,
        by unfold postSplit; rw [if_neg (by decide)],
        by simp [alookup, List.find?],
        by rw [sortIfMulti_indexNames]; exact set_index_indexNames hdsm⟩
  · intro e he h2
    subst hdata
    simp only [List.mem_map] at he
    obtain ⟨p, hp, hpe⟩ := he
    rw [← hpe] at h2 ⊢
    simp only at h2 ⊢
    rw [sortIfMulti_indexNames] at h2
    exact sortIfMulti_pairwise p.2 h2

unseal Rat.add Rat.mul Rat.inv Rat.sub in
/-- Witness for C4 at the concrete workbook `cwb`: the key list of the
returned dict. -/
theorem read_excel_schema_witness :
    cdataW.map Prod.fst = ["global_prop", "site", "commodity", "process",
      "process_commodity", "transmission", "storage", "demand", "supim",
      "buy_sell_price", "dsm"] :=
  (read_excel_schema cwb cdataW (by decide)).1
